import Mathlib

/-!
Verification of the centrifuge-control core (interface.py / pipeline.py).

The Python source is shallowly embedded below.  Strings are modelled as
`List Char`; times are exact rationals (Python floats are modelled as exact
rationals, with the IEEE-754 rounding of finite values abstracted away —
none of the verified properties depends on rounding); Python `int` is `ℤ`
(unbounded, as in Python).  Character classes (`\s`, `\d`) are modelled by
their ASCII subsets, which is what the source's data actually exercises.

Regular-expression semantics.  Every regex in the source is a chain of
literals and greedy quantifiers over *pairwise-disjoint* character classes
(digits `\d`, whitespace `\s`, separators `[,\s]`, value characters
`[-\d.]` / `[-\d]`, and literal label text starting with a non-class,
non-space character).  For such a chain the backtracking engine is
deterministic: a greedy step can never profitably give characters back,
because the returned character belongs to a class the next element can
never match.  Hence each `re.match`/`re.search` below is embedded as a
deterministic maximal-munch scanner (`List.takeWhile`/`List.dropWhile`),
and `re.search` as the scanner tried at each position left to right
(leftmost match), exactly the behaviour of Python's engine on these
patterns.
-/

/-- Python `\s` restricted to ASCII: the whitespace characters
`' '`, `'\t'`, `'\n'`, `'\r'`, `'\x0b'`, `'\x0c'` (the set of
`str.strip()` and of `\s` on ASCII input). -/
def pyWhitespace (c : Char) : Bool :=
  c == ' ' || c == '\t' || c == '\n' || c == '\r' || c == '\x0b' || c == '\x0c'

/-- Python `str.strip()`: remove whitespace from both ends. -/
def pyStrip (s : List Char) : List Char :=
  ((s.dropWhile pyWhitespace).reverse.dropWhile pyWhitespace).reverse

/-- Numeric value of a decimal digit character. -/
def digitVal (c : Char) : ℕ := c.toNat - 48

/-- Python `int(<digit string>)` on an unsigned digit run (the value of a
captured `\d+` group). -/
def digitsVal (l : List Char) : ℕ := l.foldl (fun a c => 10 * a + digitVal c) 0

/-- Case-sensitive literal match: consume `pat` from the front of `s`,
returning the rest on success. -/
def litExact : List Char → List Char → Option (List Char)
  | [], s => some s
  | _ :: _, [] => none
  | p :: ps, c :: cs => if p == c then litExact ps cs else none

/-- Case-insensitive literal match (for the `re.IGNORECASE` searches). -/
def litCI : List Char → List Char → Option (List Char)
  | [], s => some s
  | _ :: _, [] => none
  | p :: ps, c :: cs => if p.toLower == c.toLower then litCI ps cs else none

/-- Whole-string case-insensitive equality with a literal. -/
def litCIFull (pat s : List Char) : Bool :=
  match litCI pat s with
  | some [] => true
  | _ => false

/-- The separator class `[,\s]` of the structured-pair grammar. -/
def sepChar (c : Char) : Bool := c == ',' || pyWhitespace c

/-- `re.match(r"^(\d+)[,\s]+(\d+)$", command)` — grammar 1 of
`parse_command` (interface.py line 79): the entire text is two unsigned
digit runs separated by a run of commas/whitespace.  The three classes are
pairwise disjoint, so greedy matching is the unique maximal-munch
decomposition. -/
def twoNumbersMatch (s : List Char) : Option (ℕ × ℕ) :=
  let d1 := s.takeWhile Char.isDigit
  let r1 := s.dropWhile Char.isDigit
  if d1 = [] then none
  else
    let sep := r1.takeWhile sepChar
    let r2 := r1.dropWhile sepChar
    if sep = [] then none
    else
      let d2 := r2.takeWhile Char.isDigit
      let r3 := r2.dropWhile Char.isDigit
      if d2 = [] then none
      else if r3 = [] then some (digitsVal d1, digitsVal d2) else none

/-- One attempt of `(\d+)\s*rpm` (IGNORECASE) at the current position:
a digit run, optional whitespace, then the literal `rpm`. -/
def rpmAt (s : List Char) : Option ℕ :=
  let d := s.takeWhile Char.isDigit
  if d = [] then none
  else
    let r := (s.dropWhile Char.isDigit).dropWhile pyWhitespace
    match litCI ['r', 'p', 'm'] r with
    | some _ => some (digitsVal d)
    | none => none

/-- `re.search(r"(\d+)\s*rpm", command, re.IGNORECASE)` (interface.py
line 85): leftmost position where `rpmAt` succeeds. -/
def searchRpm : List Char → Option ℕ
  | [] => none
  | c :: cs =>
    match rpmAt (c :: cs) with
    | some n => some n
    | none => searchRpm cs

/-- One attempt of `(\d+)\s*(minutes?|seconds?)` (IGNORECASE) at the
current position.  Returns the captured number and whether the unit
alternative was `minutes?` (the code only tests `'min' in group(2)`,
which holds exactly for that alternative; the optional trailing `s` does
not influence anything downstream). -/
def timeAt (s : List Char) : Option (ℕ × Bool) :=
  let d := s.takeWhile Char.isDigit
  if d = [] then none
  else
    let r := (s.dropWhile Char.isDigit).dropWhile pyWhitespace
    match litCI ['m', 'i', 'n', 'u', 't', 'e'] r with
    | some _ => some (digitsVal d, true)
    | none =>
      match litCI ['s', 'e', 'c', 'o', 'n', 'd'] r with
      | some _ => some (digitsVal d, false)
      | none => none

/-- `re.search(r"(\d+)\s*(minutes?|seconds?)", command, re.IGNORECASE)`
(interface.py line 86): leftmost position where `timeAt` succeeds. -/
def searchTime : List Char → Option (ℕ × Bool)
  | [] => none
  | c :: cs =>
    match timeAt (c :: cs) with
    | some nb => some nb
    | none => searchTime cs

/-- A Python `float` value: finite values are modelled as exact
rationals; the infinities and NaN are the distinguished non-finite
values that `float(text)` can also produce. -/
inductive PyFloat where
  | finite (q : ℚ)
  | inf
  | neginf
  | nan
deriving DecidableEq

/-- Python exceptions that matter to `parse_command`'s fallback:
`int(float(command))` raises `ValueError` on unparsable text or NaN and
`OverflowError` on an infinity; the source catches only `ValueError`. -/
inductive PyExc where
  | valueError
  | overflowError
deriving DecidableEq

/-- Mantissa part of a float literal: `digits [. digits*] | . digits`,
followed (by the caller) by an optional exponent. -/
def floatMantissa (s : List Char) : Option (ℚ × List Char) :=
  let ip := s.takeWhile Char.isDigit
  let r1 := s.dropWhile Char.isDigit
  match r1 with
  | '.' :: r2 =>
    let fp := r2.takeWhile Char.isDigit
    let r3 := r2.dropWhile Char.isDigit
    if ip = [] ∧ fp = [] then none
    else some ((digitsVal ip : ℚ) + (digitsVal fp : ℚ) / (10 : ℚ) ^ fp.length, r3)
  | _ => if ip = [] then none else some ((digitsVal ip : ℚ), r1)

/-- Optional exponent suffix `e[+-]?digits` of a float literal; the whole
rest of the text must be consumed. -/
def floatExpo (m : ℚ) (s : List Char) : Option ℚ :=
  match s with
  | [] => some m
  | c :: r =>
    if c.toLower == 'e' then
      let (pos, r2) :=
        match r with
        | '+' :: r3 => (true, r3)
        | '-' :: r3 => (false, r3)
        | r3 => (true, r3)
      let d := r2.takeWhile Char.isDigit
      let r4 := r2.dropWhile Char.isDigit
      if d = [] ∨ r4 ≠ [] then none
      else some (if pos then m * (10 : ℚ) ^ digitsVal d else m / (10 : ℚ) ^ digitsVal d)
    else none

/-- Python `float(text)`: surrounding whitespace stripped, optional sign,
then `inf`/`infinity`/`nan` (case-insensitive) or a decimal literal with
optional fraction and exponent.  Returns `none` where Python raises
`ValueError`.  (Digit-group underscores and non-ASCII digits, which
Python also accepts, are not modelled; no claim depends on them.) -/
def pyFloatOfString (s0 : List Char) : Option PyFloat :=
  let s := pyStrip s0
  let (neg, s1) :=
    match s with
    | '+' :: r => (false, r)
    | '-' :: r => (true, r)
    | r => (false, r)
  if litCIFull ['i', 'n', 'f'] s1 || litCIFull ['i', 'n', 'f', 'i', 'n', 'i', 't', 'y'] s1 then
    some (if neg then PyFloat.neginf else PyFloat.inf)
  else if litCIFull ['n', 'a', 'n'] s1 then some PyFloat.nan
  else
    match floatMantissa s1 with
    | none => none
    | some (m, r) =>
      match floatExpo m r with
      | none => none
      | some q => some (PyFloat.finite (if neg then -q else q))

/-- Truncation toward zero of an exact rational — the value of Python
`int(f)` on a finite float. -/
def ratTrunc (q : ℚ) : ℤ := Int.tdiv q.num (q.den : ℤ)

/-- Python `int(f)` on a float: truncation on finite values,
`OverflowError` on the infinities, `ValueError` on NaN. -/
def pyIntOfFloat : PyFloat → Except PyExc ℤ
  | PyFloat.finite q => Except.ok (ratTrunc q)
  | PyFloat.inf => Except.error PyExc.overflowError
  | PyFloat.neginf => Except.error PyExc.overflowError
  | PyFloat.nan => Except.error PyExc.valueError

/-- Decidable equality for `Except`, so that concrete runs of the parser
can be settled by `decide`. -/
instance {ε α : Type} [DecidableEq ε] [DecidableEq α] : DecidableEq (Except ε α) := fun x y =>
  match x, y with
  | Except.ok a, Except.ok b =>
    if h : a = b then isTrue (by rw [h]) else isFalse (fun hh => by cases hh; exact h rfl)
  | Except.error a, Except.error b =>
    if h : a = b then isTrue (by rw [h]) else isFalse (fun hh => by cases hh; exact h rfl)
  | Except.ok _, Except.error _ => isFalse (fun hh => by cases hh)
  | Except.error _, Except.ok _ => isFalse (fun hh => by cases hh)

/-- Timer extraction from the `time_match` search (interface.py lines
96–100): the captured number, times 60 when the unit alternative was
minutes. -/
def timerOf (command : List Char) : Option ℤ :=
  match searchTime command with
  | some (n, isMin) => some (if isMin then (n : ℤ) * 60 else (n : ℤ))
  | none => none

/-- The whole-text numeric fallback `int(float(command))` guarded by
`except ValueError` (interface.py lines 91–94): a `ValueError` (from
`float` on unparsable text, or from `int` on NaN) is caught and yields
`rpm_val = None`; an `OverflowError` (from `int` on an infinity)
propagates. -/
def fallbackRpm (command : List Char) : Except PyExc (Option ℤ) :=
  match pyFloatOfString command with
  | none => Except.ok none
  | some f =>
    match pyIntOfFloat f with
    | Except.ok z => Except.ok (some z)
    | Except.error PyExc.valueError => Except.ok none
    | Except.error e => Except.error e

/-- `parse_command` (interface.py lines 77–101; pipeline.py lines 42–74 is
the same logic).  Returns `(rpm_val, timer)`, each `None`able; `rpm_val =
none` is the `Invalid` outcome.  An `OverflowError` from the fallback
propagates out of the function. -/
def parse_command (command0 : String) : Except PyExc (Option ℤ × Option ℤ) :=
  let command := pyStrip command0.data
  match twoNumbersMatch command with
  | some (a, b) => Except.ok (some (a : ℤ), some (b : ℤ))
  | none =>
    match searchRpm command with
    | some n => Except.ok (some (n : ℤ), timerOf command)
    | none =>
      match fallbackRpm command with
      | Except.ok v => Except.ok (v, timerOf command)
      | Except.error e => Except.error e

/-- Decimal digit character of a digit value (`0 ↦ '0'`, …, `9 ↦ '9'`). -/
def decDigitChar : ℕ → Char
  | 0 => '0'
  | 1 => '1'
  | 2 => '2'
  | 3 => '3'
  | 4 => '4'
  | 5 => '5'
  | 6 => '6'
  | 7 => '7'
  | 8 => '8'
  | 9 => '9'
  | _ => '*'

/-- Little-endian base-10 digit values of `n`, written with explicit fuel
so that the recursion is structural (the fuel `n` is ample: the loop runs
for at most the number of digits).  Proved equal to `Nat.digits 10 n`
below. -/
def decDigitsRev (fuel n : ℕ) : List ℕ :=
  match fuel with
  | 0 => []
  | f + 1 => if n = 0 then [] else n % 10 :: decDigitsRev f (n / 10)

/-- Decimal rendering of a natural number — Python `str(n)` / `f"{n}"`
for a non-negative int. -/
def natStr (n : ℕ) : List Char :=
  if n = 0 then ['0'] else (decDigitsRev n n).reverse.map decDigitChar

/-- Python `str(z)` / `f"{z}"` for an int: optional `-` sign followed by
decimal digits. -/
def intStr (z : ℤ) : List Char :=
  if z < 0 then '-' :: natStr z.natAbs else natStr z.natAbs

/-- The outbound wire line `f"{rpm},{timer}\n"` of `send_command`
(interface.py line 108) for a command with a duration. -/
def wireLine (rpm timer : ℕ) : String := ⟨natStr rpm ++ ',' :: natStr timer ++ ['\n']⟩

/-- `send_command(command, ser)` (interface.py lines 103–121): parse the
text; on a valid rpm build the wire line, update the countdown deadline
(set to `now + timer`, or cleared when no timer), and attempt the serial
write.  Returns the list of lines passed to `ser.write` together with the
new `countdown_end_time`; an invalid command writes nothing and leaves
the countdown untouched.  A `write` failure is only logged (the data and
countdown update are the same), so the transport outcome does not appear
here.  An uncaught exception from `parse_command` propagates. -/
def send_command (command : String) (now : ℚ) (countdown_end_time : Option ℚ) :
    Except PyExc (List String × Option ℚ) :=
  match parse_command command with
  | Except.error e => Except.error e
  | Except.ok (none, _) => Except.ok ([], countdown_end_time)
  | Except.ok (some rpm, some t) =>
    Except.ok ([⟨intStr rpm ++ ',' :: intStr t ++ ['\n']⟩], some (now + (t : ℚ)))
  | Except.ok (some rpm, none) => Except.ok ([⟨intStr rpm ++ ['\n']⟩], none)

/-- Outcome of one countdown check, as displayed by `update`:
`expired` (stop sent, countdown cleared), `active r` (remaining time `r`
shown), `idle` (no active countdown, empty display). -/
inductive TickStatus where
  | expired
  | active (remaining : ℚ)
  | idle
deriving DecidableEq

set_option linter.unusedVariables false in
/-- The countdown block of `update` (interface.py lines 362–375;
pipeline.py lines 353–366): with an armed deadline, if `remaining =
deadline - now ≤ 0` the stop line `"0\n"` is written (`writeOk` tells
whether `ser.write`/`ser.flush` succeeded; a failure is only logged, the
`except` branch just prints) and `countdown_end_time = None` is executed
*unconditionally after the try/except*; otherwise the remaining time is
displayed.  Returns (new deadline, lines passed to `ser.write`, status).
Note the result state does not depend on `writeOk`: that is precisely
the auto-disarm-even-on-failure behaviour settled by the claims. -/
def tickCountdown (countdown_end_time : Option ℚ) (now : ℚ) (writeOk : Bool) :
    Option ℚ × List String × TickStatus :=
  match countdown_end_time with
  | none => (none, [], TickStatus.idle)
  | some d =>
    let remaining := d - now
    if remaining ≤ 0 then (none, ["0\n"], TickStatus.expired)
    else (some d, [], TickStatus.active remaining)

/-- A sequence of ticks of the countdown block (successful writes),
accumulating the stop lines written. -/
def runTicks (countdown_end_time : Option ℚ) : List ℚ → Option ℚ × List String
  | [] => (countdown_end_time, [])
  | t :: rest =>
    let s1 := tickCountdown countdown_end_time t true
    let s2 := runTicks s1.1 rest
    (s2.1, s1.2.1 ++ s2.2)

/-- ASCII lowercasing of a text — Python `str.lower()` on the data the
confirmation flow sees. -/
def lowerChars (l : List Char) : List Char := l.map Char.toLower

/-- Whether `needle` occurs as a contiguous substring of `haystack` —
Python's `needle in haystack`. -/
def hasSubstring (needle haystack : List Char) : Bool :=
  match haystack with
  | [] => litCIFull needle []
  | _ :: t =>
    match litExact needle haystack with
    | some _ => true
    | none => hasSubstring needle t

/-- The affirmative test of the confirmation flow:
`"yes" in response.lower()` (interface.py line 183). -/
def containsYes (response : String) : Bool :=
  hasSubstring ['y', 'e', 's'] (lowerChars response.data)

/-- Resolution step of the voice-confirmation flow (interface.py lines
172–189): after the pending text `output` has been announced, the spoken
`response` either confirms (the lowercased response contains `"yes"`, and
the pending *text* is re-parsed and dispatched through `send_command`) or
cancels (nothing is written, countdown untouched). -/
def confirmResolve (pending response : String) (now : ℚ) (countdown_end_time : Option ℚ) :
    Except PyExc (List String × Option ℚ) :=
  if containsYes response then send_command pending now countdown_end_time
  else Except.ok ([], countdown_end_time)

/-- The value-character class `[-\d.]` of the telemetry pattern. -/
def grpChar (c : Char) : Bool := c == '-' || c == '.' || c.isDigit

/-- The PWM value-character class `[-\d]` of the telemetry pattern. -/
def pwmChar (c : Char) : Bool := c == '-' || c.isDigit

def rpmLbl : List Char := ['R', 'P', 'M', ':']
def maLbl : List Char := ['M', 'A', ':']
def setLbl : List Char := ['S', 'e', 't', ':']
def pwmLbl : List Char := ['P', 'W', 'M', ':']
def errLbl : List Char := ['%', 'E', 'r', 'r', ':']

/-- One labelled field of the telemetry pattern: the literal label,
`\s*`, then a greedy non-empty run of the value class.  Returns the
captured group and the rest of the line. -/
def fieldAt (lbl : List Char) (cls : Char → Bool) (s : List Char) :
    Option (List Char × List Char) :=
  match litExact lbl s with
  | none => none
  | some r1 =>
    let r2 := r1.dropWhile pyWhitespace
    if r2.takeWhile cls = [] then none
    else some (r2.takeWhile cls, r2.dropWhile cls)

/-- `\s+`: at least one whitespace character, consumed greedily. -/
def ws1 : List Char → Option (List Char)
  | [] => none
  | c :: cs => if pyWhitespace c then some (cs.dropWhile pyWhitespace) else none

/-- The five captured groups of the telemetry pattern. -/
structure RawGroups where
  g1 : List Char
  g2 : List Char
  g3 : List Char
  g4 : List Char
  g5 : List Char
deriving DecidableEq

/-- One attempt of the telemetry pattern
`RPM:\s*([-\d.]+)\s+MA:\s*([-\d.]+)\s+Set:\s*([-\d.]+)\s+PWM:\s*([-\d]+)\s+%Err:\s*([-\d.]+)`
(interface.py lines 260–262) at the current position.  The classes are
disjoint from `\s` and the labels start with non-class characters, so the
greedy engine is deterministic (see the header note).  Returns the
captured groups and the unconsumed rest of the line. -/
def matchFrameAt (s : List Char) : Option (RawGroups × List Char) :=
  match fieldAt rpmLbl grpChar s with
  | none => none
  | some (g1, r1) =>
    match ws1 r1 with
    | none => none
    | some r1b =>
      match fieldAt maLbl grpChar r1b with
      | none => none
      | some (g2, r2) =>
        match ws1 r2 with
        | none => none
        | some r2b =>
          match fieldAt setLbl grpChar r2b with
          | none => none
          | some (g3, r3) =>
            match ws1 r3 with
            | none => none
            | some r3b =>
              match fieldAt pwmLbl pwmChar r3b with
              | none => none
              | some (g4, r4) =>
                match ws1 r4 with
                | none => none
                | some r4b =>
                  match fieldAt errLbl grpChar r4b with
                  | none => none
                  | some (g5, r5) => some (⟨g1, g2, g3, g4, g5⟩, r5)

/-- `pattern.search(line)`: the telemetry pattern tried at each position
left to right; the leftmost match wins. -/
def searchFrame : List Char → Option RawGroups
  | [] => none
  | c :: t =>
    match matchFrameAt (c :: t) with
    | some (gs, _) => some gs
    | none => searchFrame t

/-- `float(group)` for a captured value group, keeping only finite
results.  A group drawn from `[-\d.]+` can never spell `inf`/`nan`, so
the non-finite cases are unreachable here; mapping them to `none` is
therefore harmless. -/
def pyFloatFinite (s : List Char) : Option ℚ :=
  match pyFloatOfString s with
  | some (PyFloat.finite q) => some q
  | _ => none

/-- Python `int(text)` on a string: optional sign then a non-empty digit
run, nothing else (`ValueError` otherwise, modelled as `none`). -/
def pyIntOfString (s0 : List Char) : Option ℤ :=
  let s := pyStrip s0
  let (neg, s1) :=
    match s with
    | '+' :: r => (false, r)
    | '-' :: r => (true, r)
    | r => (false, r)
  let d := s1.takeWhile Char.isDigit
  let r := s1.dropWhile Char.isDigit
  if d = [] ∨ r ≠ [] then none
  else some (if neg then -(digitsVal d : ℤ) else (digitsVal d : ℤ))

/-- One decoded telemetry reading.  Fields mirror the five captured
values (`t` is added by the caller at append time). -/
structure TelemetryFrame where
  rpm : ℚ
  ma : ℚ
  setRpm : ℚ
  pwm : ℤ
  perr : ℚ
deriving DecidableEq

/-- The conversion block of `update` (interface.py lines 325–332):
`float` on groups 1, 2, 3, 5 and `int` on group 4; any `ValueError`
rejects the whole line (`continue`). -/
def convertGroups (g : RawGroups) : Option TelemetryFrame :=
  match pyFloatFinite g.g1, pyFloatFinite g.g2, pyFloatFinite g.g3,
      pyIntOfString g.g4, pyFloatFinite g.g5 with
  | some a, some b, some c, some d, some e => some ⟨a, b, c, d, e⟩
  | _, _, _, _, _ => none

/-- `FrameDecoder.decode`: the per-line decoding of `update` — regex
search for the telemetry pattern, then numeric conversion of the five
captured groups; `none` is the `Rejected` outcome. -/
def decodeLine (line : List Char) : Option TelemetryFrame :=
  match searchFrame line with
  | none => none
  | some gs => convertGroups gs

/-- The six parallel telemetry series of the source
(`t_data` … `perr_data`), always pushed and popped in lockstep. -/
structure Series where
  t_data : List ℚ
  rpm_data : List ℚ
  ma_data : List ℚ
  set_data : List ℚ
  pwm_data : List ℤ
  perr_data : List ℚ
deriving DecidableEq

/-- The all-six append performed when a line decodes
(interface.py lines 333–339). -/
def pushFrame (st : Series) (now : ℚ) (f : TelemetryFrame) : Series :=
  ⟨st.t_data ++ [now], st.rpm_data ++ [f.rpm], st.ma_data ++ [f.ma],
    st.set_data ++ [f.setRpm], st.pwm_data ++ [f.pwm], st.perr_data ++ [f.perr]⟩

/-- Handling of one non-empty serial line in `update` (interface.py
lines 322–339): decode it; on success append the reading to all six
series, otherwise leave every series untouched. -/
def processLine (st : Series) (now : ℚ) (line : List Char) : Series :=
  match decodeLine line with
  | none => st
  | some f => pushFrame st now f

/-- Number of frames the rolling-window loop pops: `while t_data and
t_data[0] < current_time - 60` pops one frame from the front of all six
series per iteration, so it removes exactly the longest stale prefix of
`t_data` (interface.py lines 341–349). -/
def evictCount (now : ℚ) (st : Series) : ℕ :=
  (st.t_data.takeWhile (fun x => decide (x < now - 60))).length

/-- The rolling-window eviction of `update`: drop the stale prefix from
all six series in lockstep. -/
def evictSeries (now : ℚ) (st : Series) : Series :=
  let n := evictCount now st
  ⟨st.t_data.drop n, st.rpm_data.drop n, st.ma_data.drop n,
    st.set_data.drop n, st.pwm_data.drop n, st.perr_data.drop n⟩

/-- All characters of a segment are whitespace. -/
def allWs (l : List Char) : Prop := ∀ c ∈ l, pyWhitespace c = true

/-- A well-formed captured value: non-empty and drawn from the value
class. -/
def goodGroup (cls : Char → Bool) (g : List Char) : Prop :=
  g ≠ [] ∧ ∀ c ∈ g, cls c = true

/-- The text between a label and the next label of the telemetry
grammar: optional whitespace, a well-formed value `g`, then the
mandatory `\s+` separator. -/
def Seg (cls : Char → Bool) (g a : List Char) : Prop :=
  ∃ w u, a = w ++ g ++ u ∧ allWs w ∧ goodGroup cls g ∧ allWs u ∧ u ≠ []

/-- The text after the last label: optional whitespace, a well-formed
value `g`, then an arbitrary unmatched tail. -/
def SegLast (cls : Char → Bool) (g a : List Char) : Prop :=
  ∃ w suf, a = w ++ g ++ suf ∧ allWs w ∧ goodGroup cls g

/-- A line contains, somewhere within it, the five labelled fields of
the telemetry grammar in the fixed order `RPM:`, `MA:`, `Set:`, `PWM:`,
`%Err:`, each followed by a well-formed value of the right class.  A
line missing a labelled field, or carrying the labels in any other
order, has no such decomposition. -/
def FrameShape (line : List Char) : Prop :=
  ∃ pre a1 a2 a3 a4 a5 g1 g2 g3 g4 g5,
    line = pre ++ rpmLbl ++ a1 ++ maLbl ++ a2 ++ setLbl ++ a3 ++ pwmLbl ++ a4 ++
      errLbl ++ a5 ∧
    Seg grpChar g1 a1 ∧ Seg grpChar g2 a2 ∧ Seg grpChar g3 a3 ∧ Seg pwmChar g4 a4 ∧
    SegLast grpChar g5 a5

/-! Sanity checks of the embedding on concrete runs of the source logic. -/

theorem decode_accepts_interior_match :
    decodeLine "xx RPM: 1 MA: 2 Set: 3 PWM: 4 %Err: 5 yy".data = some ⟨1, 2, 3, 4, 5⟩ := by
  decide

theorem decode_rejects_swapped_labels :
    decodeLine "RPM: 1 Set: 3 MA: 2 PWM: 4 %Err: 5".data = none := by decide

theorem decode_rejects_bad_pwm :
    decodeLine "RPM: 1 MA: 2 Set: 3 PWM: 4.5 %Err: 5".data = none := by decide


/-! ### Countdown timer (C1, C2) -/

theorem tickCountdown_idle (now : ℚ) (b : Bool) :
    tickCountdown none now b = (none, [], TickStatus.idle) := rfl

theorem tickCountdown_active (D now : ℚ) (b : Bool) (h : now < D) :
    tickCountdown (some D) now b = (some D, [], TickStatus.active (D - now)) := by
  simp only [tickCountdown]
  rw [if_neg (by linarith)]

theorem tickCountdown_fires (D now : ℚ) (b : Bool) (h : D - now ≤ 0) :
    tickCountdown (some D) now b = (none, ["0\n"], TickStatus.expired) := by
  simp only [tickCountdown]
  rw [if_pos h]

theorem runTicks_nil (s : Option ℚ) : runTicks s [] = (s, []) := rfl

theorem runTicks_idle (l : List ℚ) : runTicks none l = (none, []) := by
  induction l with
  | nil => rfl
  | cons t rest ih => simp [runTicks, tickCountdown, ih]

theorem runTicks_before (D : ℚ) (l : List ℚ) (h : ∀ x ∈ l, x < D) :
    runTicks (some D) l = (some D, []) := by
  induction l with
  | nil => rfl
  | cons t rest ih =>
    have ht : t < D := h t (List.mem_cons_self t rest)
    simp [runTicks, tickCountdown_active D t true ht,
      ih (fun x hx => h x (List.mem_cons_of_mem t hx))]

theorem runTicks_append (s : Option ℚ) (l1 l2 : List ℚ) :
    runTicks s (l1 ++ l2) =
      ((runTicks (runTicks s l1).1 l2).1,
        (runTicks s l1).2 ++ (runTicks (runTicks s l1).1 l2).2) := by
  induction l1 generalizing s with
  | nil => simp [runTicks]
  | cons t rest ih => simp [runTicks, ih]

/-- C1: for every armed countdown (deadline `t0 + d` set at arm time
`t0`), ticks strictly before the deadline keep it armed (and display the
remaining time) and write nothing; the first tick strictly past the
deadline writes the stop command `"0\n"` exactly once and clears the
deadline (auto-disarm); every later tick sees no active countdown
(`idle`, empty display) and writes nothing; so the whole run dispatches
exactly one stop line. -/
theorem c1_countdown_one_shot (t0 d : ℚ) (pre : List ℚ) (t : ℚ) (post : List ℚ)
    (hpre : ∀ x ∈ pre, x < t0 + d) (ht : t0 + d < t) :
    runTicks (some (t0 + d)) pre = (some (t0 + d), []) ∧
    (∀ x ∈ pre, tickCountdown (some (t0 + d)) x true =
      (some (t0 + d), [], TickStatus.active (t0 + d - x))) ∧
    tickCountdown (some (t0 + d)) t true = (none, ["0\n"], TickStatus.expired) ∧
    (∀ y : ℚ, ∀ b : Bool, tickCountdown none y b = (none, [], TickStatus.idle)) ∧
    runTicks (some (t0 + d)) (pre ++ t :: post) = (none, ["0\n"]) := by
  have h1 := runTicks_before (t0 + d) pre hpre
  have h2 := tickCountdown_fires (t0 + d) t true (by linarith)
  refine ⟨h1, fun x hx => tickCountdown_active (t0 + d) x true (hpre x hx), h2,
    fun y b => rfl, ?_⟩
  rw [runTicks_append, h1]
  simp [runTicks, h2, runTicks_idle post]

/-- C1 witness: arming at `t0 = 0` with `d = 10`, ticking at 3 and 7
(before), then 11 (strictly past), then 12 and 20. -/
theorem c1_countdown_one_shot_witness :
    runTicks (some ((0 : ℚ) + 10)) [3, 7] = (some ((0 : ℚ) + 10), []) ∧
    (∀ x ∈ [(3 : ℚ), 7], tickCountdown (some ((0 : ℚ) + 10)) x true =
      (some ((0 : ℚ) + 10), [], TickStatus.active ((0 : ℚ) + 10 - x))) ∧
    tickCountdown (some ((0 : ℚ) + 10)) 11 true = (none, ["0\n"], TickStatus.expired) ∧
    (∀ y : ℚ, ∀ b : Bool, tickCountdown none y b = (none, [], TickStatus.idle)) ∧
    runTicks (some ((0 : ℚ) + 10)) ([3, 7] ++ 11 :: [12, 20]) = (none, ["0\n"]) :=
  c1_countdown_one_shot 0 10 [3, 7] 11 [12, 20]
    (by intro x hx; fin_cases hx <;> norm_num) (by norm_num)

/-- C2 counterexample: at deadline 5, a tick at time 6 whose stop write
FAILS (`writeOk = false`) still clears the deadline — the new state is
`none`, not the unchanged `some 5` the claim requires, so no retry can
happen on the next tick. -/
theorem c2_failed_write_still_disarms_cex :
    tickCountdown (some 5) 6 false = (none, ["0\n"], TickStatus.expired) ∧
    (tickCountdown (some 5) 6 false).1 ≠ some 5 ∧
    tickCountdown ((tickCountdown (some 5) 6 false).1) 7 true = (none, [], TickStatus.idle) := by
  have h : tickCountdown (some 5) 6 false = (none, ["0\n"], TickStatus.expired) := by
    simp only [tickCountdown]; norm_num
  exact ⟨h, by rw [h]; simp, by rw [h]; rfl⟩

/-- C2 amended: when the expiry stop write fails, the error is only
logged; `countdown_end_time = None` runs unconditionally after the
try/except, so the deadline is cleared regardless of the write outcome
(the tick result does not depend on `writeOk` at all) and the stop send
is NOT retried on any later tick (which all report `idle` and write
nothing). -/
theorem c2_failed_write_still_disarms_amended (d now : ℚ) (ok : Bool)
    (h : d - now ≤ 0) :
    tickCountdown (some d) now ok = (none, ["0\n"], TickStatus.expired) ∧
    tickCountdown (some d) now ok = tickCountdown (some d) now true ∧
    (∀ now2 : ℚ, ∀ ok2 : Bool, tickCountdown none now2 ok2 = (none, [], TickStatus.idle)) :=
  ⟨tickCountdown_fires d now ok h,
    (tickCountdown_fires d now ok h).trans (tickCountdown_fires d now true h).symm,
    fun _ _ => rfl⟩

/-- C2 amended witness: deadline 5, tick at 6 with a failing write. -/
theorem c2_failed_write_still_disarms_amended_witness :
    tickCountdown (some 5) 6 false = (none, ["0\n"], TickStatus.expired) ∧
    tickCountdown (some 5) 6 false = tickCountdown (some 5) 6 true ∧
    (∀ now2 : ℚ, ∀ ok2 : Bool, tickCountdown none now2 ok2 = (none, [], TickStatus.idle)) :=
  c2_failed_write_still_disarms_amended 5 6 false (by norm_num)

/-! ### Parser totality (C3) -/

/-- C3: the input `"inf"` refutes parser totality on the code as
written: grammar 1 and the two `re.search`es miss (no digits), the
fallback runs `int(float("inf"))`, `float` returns an infinity, and
`int` raises `OverflowError` — which the `except ValueError` handler
does NOT catch, so the exception escapes `parse_command` instead of an
`Invalid` result. -/
theorem c3_parse_inf_raises : parse_command "inf" = Except.error PyExc.overflowError := by
  decide

/-! ### Parser sign behaviour (C4) and reference inputs (C7) -/

/-- C4 counterexample: the input `"-5"` misses grammar 1 and the `rpm`
search (both only match unsigned digit runs) but the whole-text fallback
`int(float("-5"))` accepts the sign, so the parser yields the NEGATIVE
rpm `-5` and `send_command` then writes the line `"-5\n"`, which carries
a sign character. -/
theorem c4_negative_rpm_cex :
    parse_command "-5" = Except.ok (some (-5), none) ∧
    (-5 : ℤ) < 0 ∧
    send_command "-5" 0 none = Except.ok (["-5\n"], none) ∧
    '-' ∈ ("-5\n" : String).data := by
  decide

/-- C4 amended: the parser never yields a negative DURATION (every timer
comes from an unsigned `\d+` capture, possibly times 60), and an RPM
produced by grammar 1 or by the `rpm`-token search is likewise
non-negative; only the whole-text numeric fallback — which accepts
Python float syntax including a sign — can produce a negative RPM (and
then a signed outbound line, as the counterexample shows). -/
theorem c4_unsigned_grammars_amended (s : String) (r t : Option ℤ)
    (h : parse_command s = Except.ok (r, t)) :
    (∀ z : ℤ, t = some z → 0 ≤ z) ∧
    ((twoNumbersMatch (pyStrip s.data) ≠ none ∨ searchRpm (pyStrip s.data) ≠ none) →
      ∀ z : ℤ, r = some z → 0 ≤ z) := by
  have htimer : ∀ z : ℤ, timerOf (pyStrip s.data) = some z → 0 ≤ z := by
    intro z hz
    unfold timerOf at hz
    rcases h3 : searchTime (pyStrip s.data) with _ | ⟨n, isMin⟩ <;> rw [h3] at hz
    · exact absurd hz (by simp)
    · simp only [Option.some.injEq] at hz
      subst hz
      cases isMin <;> simp
  simp only [parse_command] at h
  rcases h2 : twoNumbersMatch (pyStrip s.data) with _ | ⟨a, b⟩ <;> rw [h2] at h
  · rcases h4 : searchRpm (pyStrip s.data) with _ | n <;> rw [h4] at h <;> simp only at h
    · rcases h5 : fallbackRpm (pyStrip s.data) with e | v <;> rw [h5] at h <;>
        simp only [Except.ok.injEq, Prod.mk.injEq, reduceCtorEq] at h
      obtain ⟨hr, ht⟩ := h
      subst hr; subst ht
      refine ⟨htimer, ?_⟩
      rintro (hc | hc) <;> exact absurd rfl hc
    · simp only [Except.ok.injEq, Prod.mk.injEq] at h
      obtain ⟨hr, ht⟩ := h
      subst hr; subst ht
      exact ⟨htimer, fun _ z hz => by
        simp only [Option.some.injEq] at hz; subst hz; positivity⟩
  · simp only [Except.ok.injEq, Prod.mk.injEq] at h
    obtain ⟨hr, ht⟩ := h
    subst hr; subst ht
    refine ⟨?_, fun _ z hz => by
      simp only [Option.some.injEq] at hz; subst hz; positivity⟩
    intro z hz
    simp only [Option.some.injEq] at hz
    subst hz; positivity

/-- C4 amended witness: the valid command `"1500 30"` (grammar 1). -/
theorem c4_unsigned_grammars_amended_witness :
    (∀ z : ℤ, (some (30 : ℤ)) = some z → 0 ≤ z) ∧
    ((twoNumbersMatch (pyStrip ("1500 30" : String).data) ≠ none ∨
        searchRpm (pyStrip ("1500 30" : String).data) ≠ none) →
      ∀ z : ℤ, (some (1500 : ℤ)) = some z → 0 ≤ z) :=
  c4_unsigned_grammars_amended "1500 30" (some 1500) (some 30) (by decide)

/-- C7: the parser maps the spec's reference inputs exactly as stated:
the structured pairs `"1500 30"` and `"1500,30"` both give rpm 1500 with
duration 30; the natural-language request gives rpm 2000 with duration
5 × 60 = 300; a bare `"2000"` gives rpm 2000 with no duration; the empty
text and `"abc"` are `Invalid` (no rpm). -/
theorem c7_reference_inputs :
    parse_command "1500 30" = Except.ok (some 1500, some 30) ∧
    parse_command "1500,30" = Except.ok (some 1500, some 30) ∧
    parse_command "set to 2000 rpm for 5 minutes" = Except.ok (some 2000, some 300) ∧
    parse_command "2000" = Except.ok (some 2000, none) ∧
    parse_command "" = Except.ok (none, none) ∧
    parse_command "abc" = Except.ok (none, none) := by
  decide

/-! ### Confirmation flow (C9) -/

/-- C9: resolving an announced pending voice command dispatches it iff
the lowercased response contains the token `"yes"`: any other response
(including no response at all — the empty text) yields no transport
write and leaves the countdown untouched; on confirmation the resolution
IS `send_command` applied to the pending TEXT, i.e. the text is re-parsed
by the command parser rather than trusted as a structured command — and
consequently a confirmed text from which no rpm can be parsed still
produces no write. -/
theorem c9_confirmation_resolution (pending response : String) (now : ℚ)
    (prev : Option ℚ) :
    (containsYes response = false →
      confirmResolve pending response now prev = Except.ok ([], prev)) ∧
    (containsYes response = true →
      confirmResolve pending response now prev = send_command pending now prev) ∧
    (containsYes response = true → ∀ t : Option ℤ,
      parse_command pending = Except.ok (none, t) →
      confirmResolve pending response now prev = Except.ok ([], prev)) := by
  refine ⟨fun h => ?_, fun h => ?_, fun h t hp => ?_⟩
  · simp [confirmResolve, h]
  · simp [confirmResolve, h]
  · simp [confirmResolve, h, send_command, hp]

/-- C9 witness: the response `"yes please"` confirms (its lowercase
contains `"yes"`), but the pending text `"abc"` re-parses to `Invalid`,
so nothing is written. -/
theorem c9_confirmation_resolution_witness :
    confirmResolve "abc" "yes please" 0 none = Except.ok ([], none) :=
  (c9_confirmation_resolution "abc" "yes please" 0 none).2.2 (by decide) none (by decide)

/-! ### Telemetry window (C5) -/

theorem dropWhile_lt_bound (c : ℚ) (l : List ℚ) (hs : l.Sorted (· ≤ ·)) :
    ∀ x ∈ l.dropWhile (fun t => decide (t < c)), c ≤ x := by
  induction l with
  | nil => intro x hx; simp at hx
  | cons a l ih =>
    intro x hx
    rw [List.dropWhile_cons] at hx
    by_cases ha : a < c
    · rw [if_pos (by simpa using ha)] at hx
      exact ih (List.sorted_cons.mp hs).2 x hx
    · rw [if_neg (by simpa using ha)] at hx
      rcases List.mem_cons.mp hx with rfl | hx
      · exact le_of_not_lt ha
      · exact le_trans (le_of_not_lt ha) ((List.sorted_cons.mp hs).1 x hx)

theorem drop_length_takeWhile (q : ℚ → Bool) (l : List ℚ) :
    l.drop (l.takeWhile q).length = l.dropWhile q := by
  nth_rewrite 2 [← List.takeWhile_append_dropWhile (p := q) (l := l)]
  exact List.drop_left _ _

theorem take_length_takeWhile (q : ℚ → Bool) (l : List ℚ) :
    l.take (l.takeWhile q).length = l.takeWhile q := by
  nth_rewrite 2 [← List.takeWhile_append_dropWhile (p := q) (l := l)]
  exact List.take_left _ _

/-- C5: if the pushed timestamps are non-decreasing then after
`evict(now)` every retained frame satisfies `t ≥ now - 60`; eviction
removes only a contiguous prefix from the front of each of the six
series (each original series is the popped prefix followed by the
retained part, unchanged and in the original order, with the same count
popped from all six in lockstep); every removed timestamp was stale
(`t < now - 60`); and the retained timestamps are still non-decreasing,
so the order invariant `i < j → t_i ≤ t_j` is preserved. -/
theorem c5_window_evicts_prefix (now : ℚ) (st : Series)
    (hs : st.t_data.Sorted (· ≤ ·)) :
    (∀ x ∈ (evictSeries now st).t_data, now - 60 ≤ x) ∧
    (∀ x ∈ st.t_data.take (evictCount now st), x < now - 60) ∧
    st.t_data = st.t_data.take (evictCount now st) ++ (evictSeries now st).t_data ∧
    st.rpm_data = st.rpm_data.take (evictCount now st) ++ (evictSeries now st).rpm_data ∧
    st.ma_data = st.ma_data.take (evictCount now st) ++ (evictSeries now st).ma_data ∧
    st.set_data = st.set_data.take (evictCount now st) ++ (evictSeries now st).set_data ∧
    st.pwm_data = st.pwm_data.take (evictCount now st) ++ (evictSeries now st).pwm_data ∧
    st.perr_data = st.perr_data.take (evictCount now st) ++ (evictSeries now st).perr_data ∧
    (evictSeries now st).t_data.Sorted (· ≤ ·) := by
  have hdrop : (evictSeries now st).t_data =
      st.t_data.dropWhile (fun t => decide (t < now - 60)) :=
    drop_length_takeWhile _ st.t_data
  refine ⟨?_, ?_, ?_, ?_, ?_, ?_, ?_, ?_, ?_⟩
  · rw [hdrop]; exact dropWhile_lt_bound _ _ hs
  · intro x hx
    rw [show st.t_data.take (evictCount now st) =
        st.t_data.takeWhile (fun t => decide (t < now - 60)) from
      take_length_takeWhile _ st.t_data] at hx
    simpa using List.mem_takeWhile_imp hx
  · exact (List.take_append_drop _ _).symm
  · exact (List.take_append_drop _ _).symm
  · exact (List.take_append_drop _ _).symm
  · exact (List.take_append_drop _ _).symm
  · exact (List.take_append_drop _ _).symm
  · exact (List.take_append_drop _ _).symm
  · exact List.Pairwise.sublist (List.drop_sublist _ _) hs

/-- C5 witness: a concrete sorted window `[5, 20, 65]` at `now = 70`. -/
theorem c5_window_evicts_prefix_witness :
    (∀ x ∈ (evictSeries 70 ⟨[5, 20, 65], [1, 2, 3], [1, 2, 3], [1, 2, 3], [1, 2, 3],
        [1, 2, 3]⟩).t_data, (70 : ℚ) - 60 ≤ x) ∧
    (∀ x ∈ ([(5 : ℚ), 20, 65]).take
        (evictCount 70 ⟨[5, 20, 65], [1, 2, 3], [1, 2, 3], [1, 2, 3], [1, 2, 3], [1, 2, 3]⟩),
      x < (70 : ℚ) - 60) ∧
    ([(5 : ℚ), 20, 65]) = ([(5 : ℚ), 20, 65]).take
        (evictCount 70 ⟨[5, 20, 65], [1, 2, 3], [1, 2, 3], [1, 2, 3], [1, 2, 3], [1, 2, 3]⟩) ++
      (evictSeries 70 ⟨[5, 20, 65], [1, 2, 3], [1, 2, 3], [1, 2, 3], [1, 2, 3],
        [1, 2, 3]⟩).t_data ∧
    ([(1 : ℚ), 2, 3]) = ([(1 : ℚ), 2, 3]).take
        (evictCount 70 ⟨[5, 20, 65], [1, 2, 3], [1, 2, 3], [1, 2, 3], [1, 2, 3], [1, 2, 3]⟩) ++
      (evictSeries 70 ⟨[5, 20, 65], [1, 2, 3], [1, 2, 3], [1, 2, 3], [1, 2, 3],
        [1, 2, 3]⟩).rpm_data ∧
    ([(1 : ℚ), 2, 3]) = ([(1 : ℚ), 2, 3]).take
        (evictCount 70 ⟨[5, 20, 65], [1, 2, 3], [1, 2, 3], [1, 2, 3], [1, 2, 3], [1, 2, 3]⟩) ++
      (evictSeries 70 ⟨[5, 20, 65], [1, 2, 3], [1, 2, 3], [1, 2, 3], [1, 2, 3],
        [1, 2, 3]⟩).ma_data ∧
    ([(1 : ℚ), 2, 3]) = ([(1 : ℚ), 2, 3]).take
        (evictCount 70 ⟨[5, 20, 65], [1, 2, 3], [1, 2, 3], [1, 2, 3], [1, 2, 3], [1, 2, 3]⟩) ++
      (evictSeries 70 ⟨[5, 20, 65], [1, 2, 3], [1, 2, 3], [1, 2, 3], [1, 2, 3],
        [1, 2, 3]⟩).set_data ∧
    ([(1 : ℤ), 2, 3]) = ([(1 : ℤ), 2, 3]).take
        (evictCount 70 ⟨[5, 20, 65], [1, 2, 3], [1, 2, 3], [1, 2, 3], [1, 2, 3], [1, 2, 3]⟩) ++
      (evictSeries 70 ⟨[5, 20, 65], [1, 2, 3], [1, 2, 3], [1, 2, 3], [1, 2, 3],
        [1, 2, 3]⟩).pwm_data ∧
    ([(1 : ℚ), 2, 3]) = ([(1 : ℚ), 2, 3]).take
        (evictCount 70 ⟨[5, 20, 65], [1, 2, 3], [1, 2, 3], [1, 2, 3], [1, 2, 3], [1, 2, 3]⟩) ++
      (evictSeries 70 ⟨[5, 20, 65], [1, 2, 3], [1, 2, 3], [1, 2, 3], [1, 2, 3],
        [1, 2, 3]⟩).perr_data ∧
    (evictSeries 70 ⟨[5, 20, 65], [1, 2, 3], [1, 2, 3], [1, 2, 3], [1, 2, 3],
      [1, 2, 3]⟩).t_data.Sorted (· ≤ ·) :=
  c5_window_evicts_prefix 70 ⟨[5, 20, 65], [1, 2, 3], [1, 2, 3], [1, 2, 3], [1, 2, 3], [1, 2, 3]⟩
    (by decide)

/-! ### Frame decoder (C6, C10) -/

theorem litExact_some (l : List Char) : ∀ s r, litExact l s = some r → s = l ++ r := by
  induction l with
  | nil =>
    intro s r h
    simp only [litExact, Option.some.injEq] at h
    simp [h]
  | cons p ps ih =>
    intro s r h
    cases s with
    | nil => exact absurd h (by simp [litExact])
    | cons c cs =>
      unfold litExact at h
      rcases eq_or_ne p c with rfl | hne
      · rw [if_pos (by simp)] at h
        simpa using ih cs r h
      · rw [if_neg (by simp [hne])] at h
        exact absurd h (by simp)

theorem fieldAt_decomp (lbl : List Char) (cls : Char → Bool) (s g r : List Char)
    (h : fieldAt lbl cls s = some (g, r)) :
    ∃ w, s = lbl ++ w ++ g ++ r ∧ allWs w ∧ goodGroup cls g := by
  rcases h1 : litExact lbl s with _ | r1 <;> simp only [fieldAt, h1] at h
  · exact absurd h (by simp)
  · by_cases h2 : (r1.dropWhile pyWhitespace).takeWhile cls = []
    · rw [if_pos h2] at h
      exact absurd h (by simp)
    · rw [if_neg h2] at h
      simp only [Option.some.injEq, Prod.mk.injEq] at h
      obtain ⟨hg, hr⟩ := h
      refine ⟨r1.takeWhile pyWhitespace, ?_, ?_, ?_, ?_⟩
      · rw [litExact_some lbl s r1 h1, ← hg, ← hr]
        simp [List.append_assoc]
      · intro c hc
        exact List.mem_takeWhile_imp hc
      · rw [← hg]; exact h2
      · intro c hc
        rw [← hg] at hc
        exact List.mem_takeWhile_imp hc

theorem ws1_decomp (s r : List Char) (h : ws1 s = some r) :
    ∃ u, s = u ++ r ∧ allWs u ∧ u ≠ [] := by
  cases s with
  | nil => exact absurd h (by simp [ws1])
  | cons c cs =>
    simp only [ws1] at h
    by_cases hc : pyWhitespace c
    · rw [if_pos hc] at h
      simp only [Option.some.injEq] at h
      refine ⟨c :: cs.takeWhile pyWhitespace, ?_, ?_, by simp⟩
      · rw [← h]
        simp [List.takeWhile_append_dropWhile]
      · intro x hx
        rcases List.mem_cons.mp hx with rfl | hx
        · exact hc
        · exact List.mem_takeWhile_imp hx
    · rw [if_neg hc] at h
      exact absurd h (by simp)

theorem fieldStep (lbl : List Char) (cls : Char → Bool) (s g r rb : List Char)
    (h1 : fieldAt lbl cls s = some (g, r)) (h2 : ws1 r = some rb) :
    ∃ a, s = lbl ++ a ++ rb ∧ Seg cls g a := by
  obtain ⟨w, hs, hw, hg⟩ := fieldAt_decomp lbl cls s g r h1
  obtain ⟨u, hr, hu, hune⟩ := ws1_decomp r rb h2
  refine ⟨w ++ g ++ u, ?_, w, u, rfl, hw, hg, hu, hune⟩
  rw [hs, hr]
  simp [List.append_assoc]

theorem fieldLast (lbl : List Char) (cls : Char → Bool) (s g r : List Char)
    (h : fieldAt lbl cls s = some (g, r)) :
    ∃ a, s = lbl ++ a ∧ SegLast cls g a := by
  obtain ⟨w, hs, hw, hg⟩ := fieldAt_decomp lbl cls s g r h
  refine ⟨w ++ g ++ r, ?_, w, r, rfl, hw, hg⟩
  rw [hs]
  simp [List.append_assoc]

theorem matchFrameAt_decomp (s : List Char) (gs : RawGroups) (rest : List Char)
    (h : matchFrameAt s = some (gs, rest)) :
    ∃ a1 a2 a3 a4 a5,
      s = rpmLbl ++ a1 ++ maLbl ++ a2 ++ setLbl ++ a3 ++ pwmLbl ++ a4 ++ errLbl ++ a5 ∧
      Seg grpChar gs.g1 a1 ∧ Seg grpChar gs.g2 a2 ∧ Seg grpChar gs.g3 a3 ∧
      Seg pwmChar gs.g4 a4 ∧ SegLast grpChar gs.g5 a5 := by
  unfold matchFrameAt at h
  rcases e1 : fieldAt rpmLbl grpChar s with _ | ⟨g1, r1⟩ <;> simp only [e1] at h
  · exact absurd h (by simp)
  rcases e2 : ws1 r1 with _ | r1b <;> simp only [e2] at h
  · exact absurd h (by simp)
  rcases e3 : fieldAt maLbl grpChar r1b with _ | ⟨g2, r2⟩ <;> simp only [e3] at h
  · exact absurd h (by simp)
  rcases e4 : ws1 r2 with _ | r2b <;> simp only [e4] at h
  · exact absurd h (by simp)
  rcases e5 : fieldAt setLbl grpChar r2b with _ | ⟨g3, r3⟩ <;> simp only [e5] at h
  · exact absurd h (by simp)
  rcases e6 : ws1 r3 with _ | r3b <;> simp only [e6] at h
  · exact absurd h (by simp)
  rcases e7 : fieldAt pwmLbl pwmChar r3b with _ | ⟨g4, r4⟩ <;> simp only [e7] at h
  · exact absurd h (by simp)
  rcases e8 : ws1 r4 with _ | r4b <;> simp only [e8] at h
  · exact absurd h (by simp)
  rcases e9 : fieldAt errLbl grpChar r4b with _ | ⟨g5, r5⟩ <;> simp only [e9] at h
  · exact absurd h (by simp)
  simp only [Option.some.injEq, Prod.mk.injEq] at h
  obtain ⟨hgs, hrest⟩ := h
  subst hgs
  obtain ⟨a1, hs1, hseg1⟩ := fieldStep rpmLbl grpChar s g1 r1 r1b e1 e2
  obtain ⟨a2, hs2, hseg2⟩ := fieldStep maLbl grpChar r1b g2 r2 r2b e3 e4
  obtain ⟨a3, hs3, hseg3⟩ := fieldStep setLbl grpChar r2b g3 r3 r3b e5 e6
  obtain ⟨a4, hs4, hseg4⟩ := fieldStep pwmLbl pwmChar r3b g4 r4 r4b e7 e8
  obtain ⟨a5, hs5, hseg5⟩ := fieldLast errLbl grpChar r4b g5 r5 e9
  refine ⟨a1, a2, a3, a4, a5, ?_, hseg1, hseg2, hseg3, hseg4, hseg5⟩
  rw [hs1, hs2, hs3, hs4, hs5]
  simp [List.append_assoc]

theorem searchFrame_decomp (line : List Char) (gs : RawGroups)
    (h : searchFrame line = some gs) :
    ∃ pre s rest, line = pre ++ s ∧ matchFrameAt s = some (gs, rest) := by
  induction line with
  | nil => exact absurd h (by simp [searchFrame])
  | cons c t ih =>
    unfold searchFrame at h
    rcases h1 : matchFrameAt (c :: t) with _ | ⟨gs2, rest⟩ <;> simp only [h1] at h
    · obtain ⟨pre, s, rest, heq, hm⟩ := ih h
      exact ⟨c :: pre, s, rest, by rw [heq]; rfl, hm⟩
    · simp only [Option.some.injEq] at h
      subst h
      exact ⟨[], c :: t, rest, rfl, h1⟩

theorem decodeLine_shape (line : List Char) (f : TelemetryFrame)
    (h : decodeLine line = some f) : FrameShape line := by
  unfold decodeLine at h
  rcases h1 : searchFrame line with _ | gs <;> rw [h1] at h
  · exact absurd h (by simp)
  · obtain ⟨pre, s, rest, heq, hm⟩ := searchFrame_decomp line gs h1
    obtain ⟨a1, a2, a3, a4, a5, hs, hseg1, hseg2, hseg3, hseg4, hseg5⟩ :=
      matchFrameAt_decomp s gs rest hm
    refine ⟨pre, a1, a2, a3, a4, a5, gs.g1, gs.g2, gs.g3, gs.g4, gs.g5, ?_,
      hseg1, hseg2, hseg3, hseg4, hseg5⟩
    rw [heq, hs]
    simp [List.append_assoc]

/-- C6: the decoder never yields a partial frame — on any line, either
the decode is `Rejected` and all six telemetry series are left exactly
as they were (in particular on every malformed line: any line that
decodes has the five labelled fields, well-formed and in the fixed
order `RPM:`, `MA:`, `Set:`, `PWM:`, `%Err:` — see `FrameShape` — so a
line with a missing field or swapped labels is rejected; and when the
regex does match but one of the captured values fails its numeric
conversion the line is also rejected with nothing appended), or the
decode succeeds and one element is appended to all six series
together. -/
theorem c6_reject_no_partial_frame (line : List Char) (st : Series) (now : ℚ) :
    (decodeLine line = none → processLine st now line = st) ∧
    (∀ f, decodeLine line = some f →
      processLine st now line = pushFrame st now f ∧ FrameShape line) ∧
    (∀ gs, searchFrame line = some gs → convertGroups gs = none →
      processLine st now line = st) := by
  refine ⟨fun h => ?_, fun f h => ?_, fun gs h1 h2 => ?_⟩
  · simp [processLine, h]
  · exact ⟨by simp [processLine, h], decodeLine_shape line f h⟩
  · simp [processLine, decodeLine, h1, h2]

/-- C6 witness: the malformed line `"junk"` (no labelled fields at all)
is rejected and leaves an empty window empty. -/
theorem c6_reject_no_partial_frame_witness :
    processLine ⟨[], [], [], [], [], []⟩ 0 ("junk" : String).data = ⟨[], [], [], [], [], []⟩ :=
  (c6_reject_no_partial_frame ("junk" : String).data ⟨[], [], [], [], [], []⟩ 0).1 (by decide)

/-! ### Decoder substring semantics (C10) -/

/-- C10 counterexample: the line below CONTAINS a substring that matches
the five-field grammar with convertible values (the tail
`"RPM: 1 MA: 2 Set: 3 PWM: 4 %Err: 5"`, which decodes on its own), yet
the decoder REJECTS the whole line: the extra leading characters are
themselves an earlier grammar match (with groups `"."`/`"-"`), the
leftmost search stops there, and `float(".")` raises `ValueError`.  So
arbitrary extra leading characters around a matching region CAN cause
rejection, refuting the claim as stated. -/
theorem c10_leading_junk_rejects_cex :
    ("RPM: . MA: . Set: . PWM: - %Err: . RPM: 1 MA: 2 Set: 3 PWM: 4 %Err: 5" : String).data =
      ("RPM: . MA: . Set: . PWM: - %Err: . " : String).data ++
        ("RPM: 1 MA: 2 Set: 3 PWM: 4 %Err: 5" : String).data ∧
    decodeLine ("RPM: 1 MA: 2 Set: 3 PWM: 4 %Err: 5" : String).data = some ⟨1, 2, 3, 4, 5⟩ ∧
    decodeLine
      ("RPM: . MA: . Set: . PWM: - %Err: . RPM: 1 MA: 2 Set: 3 PWM: 4 %Err: 5" : String).data =
      none := by
  decide

theorem matchFrameAt_nil : matchFrameAt [] = none := rfl

/-- C10 amended: the decoder does match by leftmost substring search, not
by full-line match: if a line splits as `pre ++ s`, where the grammar
matches at the start of `s` with numerically convertible captured
values, and the leading text `pre` cannot start a match (it contains no
`'R'`, so no earlier `RPM:` label), then the whole line is accepted and
produces exactly the frame of that match — whatever `pre` is and
whatever unmatched tail the match leaves inside `s`.  (By the
counterexample, the restriction on `pre` cannot be dropped: leading text
that itself contains an earlier grammar match with unconvertible values
makes the leftmost search stop there and the line is rejected.) -/
theorem c10_leftmost_substring_search_amended (pre s : List Char) (gs : RawGroups)
    (rest : List Char) (f : TelemetryFrame)
    (hpre : ∀ c ∈ pre, c ≠ 'R') (hm : matchFrameAt s = some (gs, rest))
    (hconv : convertGroups gs = some f) :
    decodeLine (pre ++ s) = some f := by
  induction pre with
  | nil =>
    cases s with
    | nil => rw [matchFrameAt_nil] at hm; exact absurd hm (by simp)
    | cons c t =>
      simp only [List.nil_append, decodeLine, searchFrame, hm]
      exact hconv
  | cons c p ih =>
    have hc : c ≠ 'R' := hpre c (List.mem_cons_self c p)
    have hfail : matchFrameAt (c :: (p ++ s)) = none := by
      have hlit : litExact rpmLbl (c :: (p ++ s)) = none := by
        simp only [rpmLbl, litExact]
        rw [if_neg (by simpa using fun hh => hc hh.symm)]
      simp only [matchFrameAt, fieldAt, hlit]
    have ih2 := ih (fun x hx => hpre x (List.mem_cons_of_mem c hx))
    simp only [List.cons_append, decodeLine, searchFrame, List.append_eq, hfail] at ih2 ⊢
    exact ih2

/-- C10 amended witness: leading junk `"zz "` (no `'R'`) before a clean
match region; the line decodes to the frame of that region. -/
theorem c10_leftmost_substring_search_amended_witness :
    decodeLine (['z', 'z', ' '] ++ ("RPM: 1 MA: 2 Set: 3 PWM: 4 %Err: 5" : String).data) =
      some ⟨1, 2, 3, 4, 5⟩ :=
  c10_leftmost_substring_search_amended ['z', 'z', ' ']
    ("RPM: 1 MA: 2 Set: 3 PWM: 4 %Err: 5" : String).data
    ⟨['1'], ['2'], ['3'], ['4'], ['5']⟩ [] ⟨1, 2, 3, 4, 5⟩
    (by decide) (by decide) (by decide)

/-! ### Wire round-trip (C8) -/

theorem decDigitsRev_eq_digits : ∀ fuel n : ℕ, n ≤ fuel → decDigitsRev fuel n = Nat.digits 10 n := by
  intro fuel
  induction fuel with
  | zero =>
    intro n hn
    have : n = 0 := Nat.le_zero.mp hn
    subst this
    simp [decDigitsRev]
  | succ f ih =>
    intro n hn
    by_cases h0 : n = 0
    · subst h0
      simp [decDigitsRev]
    · have hpos : 0 < n := Nat.pos_of_ne_zero h0
      have hlt : n / 10 < n := Nat.div_lt_self hpos (by norm_num)
      simp only [decDigitsRev, if_neg h0]
      rw [ih (n / 10) (by omega), Nat.digits_def' (by norm_num : (1 : ℕ) < 10) hpos]

theorem decDigitChar_isDigit (d : ℕ) (hd : d < 10) : (decDigitChar d).isDigit = true := by
  interval_cases d <;> decide

theorem digitVal_decDigitChar (d : ℕ) (hd : d < 10) : digitVal (decDigitChar d) = d := by
  interval_cases d <;> decide

theorem natStr_ne_nil (n : ℕ) : natStr n ≠ [] := by
  unfold natStr
  by_cases h0 : n = 0
  · simp [h0]
  · rw [if_neg h0, decDigitsRev_eq_digits n n le_rfl]
    have : Nat.digits 10 n ≠ [] := Nat.digits_ne_nil_iff_ne_zero.mpr h0
    simp [this]

theorem natStr_all_digits (n : ℕ) : ∀ c ∈ natStr n, c.isDigit = true := by
  intro c hc
  unfold natStr at hc
  by_cases h0 : n = 0
  · rw [if_pos h0] at hc
    simp only [List.mem_singleton] at hc
    subst hc
    decide
  · rw [if_neg h0, decDigitsRev_eq_digits n n le_rfl] at hc
    obtain ⟨d, hd, rfl⟩ := List.mem_map.mp hc
    exact decDigitChar_isDigit d (Nat.digits_lt_base (by norm_num) (List.mem_reverse.mp hd))

theorem digitsVal_map_foldl : ∀ (L : List ℕ) (a : ℕ), (∀ d ∈ L, d < 10) →
    List.foldl (fun acc c => 10 * acc + digitVal c) a (L.map decDigitChar) =
      List.foldl (fun acc d => 10 * acc + d) a L := by
  intro L
  induction L with
  | nil => intro a _; rfl
  | cons d M ih =>
    intro a h
    simp only [List.map_cons, List.foldl_cons]
    rw [digitVal_decDigitChar d (h d (List.mem_cons_self d M))]
    exact ih _ (fun x hx => h x (List.mem_cons_of_mem d hx))

theorem foldl_reverse_ofDigits : ∀ (L : List ℕ) (a : ℕ),
    List.foldl (fun acc d => 10 * acc + d) a L.reverse =
      a * 10 ^ L.length + Nat.ofDigits 10 L := by
  intro L
  induction L with
  | nil => intro a; simp
  | cons d M ih =>
    intro a
    simp only [List.reverse_cons, List.foldl_append, List.foldl_cons, List.foldl_nil, ih,
      Nat.ofDigits_cons, List.length_cons, pow_succ]
    ring

theorem digitsVal_natStr (n : ℕ) : digitsVal (natStr n) = n := by
  unfold natStr digitsVal
  by_cases h0 : n = 0
  · rw [if_pos h0, h0]
    decide
  · rw [if_neg h0, decDigitsRev_eq_digits n n le_rfl,
      digitsVal_map_foldl _ 0
        (fun d hd => Nat.digits_lt_base (by norm_num) (List.mem_reverse.mp hd)),
      foldl_reverse_ofDigits]
    simp [Nat.ofDigits_digits]

theorem isDigit_not_ws (c : Char) (h : c.isDigit = true) : pyWhitespace c = false := by
  by_contra hw
  rw [Bool.not_eq_false] at hw
  simp only [pyWhitespace, Bool.or_eq_true, beq_iff_eq] at hw
  rcases hw with ((((rfl | rfl) | rfl) | rfl) | rfl) | rfl <;> exact absurd h (by decide)

theorem isDigit_not_sep (c : Char) (h : c.isDigit = true) : sepChar c = false := by
  by_contra hw
  rw [Bool.not_eq_false] at hw
  simp only [sepChar, Bool.or_eq_true, beq_iff_eq] at hw
  rcases hw with rfl | hw
  · exact absurd h (by decide)
  · exact absurd (isDigit_not_ws c h) (by simp [hw])

theorem takeWhile_append_all {α : Type} (p : α → Bool) :
    ∀ a b : List α, (∀ c ∈ a, p c = true) → (a ++ b).takeWhile p = a ++ b.takeWhile p := by
  intro a
  induction a with
  | nil => intro b _; rfl
  | cons x xs ih =>
    intro b h
    rw [List.cons_append, List.takeWhile_cons, if_pos (h x (List.mem_cons_self x xs)),
      ih b (fun c hc => h c (List.mem_cons_of_mem x hc))]
    rfl

theorem dropWhile_append_all {α : Type} (p : α → Bool) :
    ∀ a b : List α, (∀ c ∈ a, p c = true) → (a ++ b).dropWhile p = b.dropWhile p := by
  intro a
  induction a with
  | nil => intro b _; rfl
  | cons x xs ih =>
    intro b h
    rw [List.cons_append, List.dropWhile_cons, if_pos (h x (List.mem_cons_self x xs)),
      ih b (fun c hc => h c (List.mem_cons_of_mem x hc))]

theorem takeWhile_eq_self_of_all {α : Type} (p : α → Bool) (l : List α)
    (h : ∀ c ∈ l, p c = true) : l.takeWhile p = l := by
  induction l with
  | nil => rfl
  | cons x xs ih =>
    rw [List.takeWhile_cons, if_pos (h x (List.mem_cons_self x xs)),
      ih (fun c hc => h c (List.mem_cons_of_mem x hc))]

theorem dropWhile_eq_nil_of_all {α : Type} (p : α → Bool) (l : List α)
    (h : ∀ c ∈ l, p c = true) : l.dropWhile p = [] := by
  induction l with
  | nil => rfl
  | cons x xs ih =>
    rw [List.dropWhile_cons, if_pos (h x (List.mem_cons_self x xs)),
      ih (fun c hc => h c (List.mem_cons_of_mem x hc))]

theorem dropWhile_eq_self_of_all {α : Type} (p : α → Bool) (l : List α)
    (h : ∀ c ∈ l, p c = false) : l.dropWhile p = l := by
  cases l with
  | nil => rfl
  | cons x xs =>
    rw [List.dropWhile_cons, if_neg (by simp [h x (List.mem_cons_self x xs)])]

theorem pyStrip_append_nl (l : List Char) (hne : l ≠ [])
    (h : ∀ c ∈ l, pyWhitespace c = false) : pyStrip (l ++ ['\n']) = l := by
  unfold pyStrip
  have h1 : (l ++ ['\n']).dropWhile pyWhitespace = l ++ ['\n'] := by
    cases l with
    | nil => exact absurd rfl hne
    | cons c cs =>
      rw [List.cons_append, List.dropWhile_cons,
        if_neg (by simp [h c (List.mem_cons_self c cs)])]
  have h2 : (l ++ ['\n']).reverse = '\n' :: l.reverse := by simp
  rw [h1, h2, List.dropWhile_cons, if_pos (by decide),
    dropWhile_eq_self_of_all _ _ (fun c hc => h c (List.mem_reverse.mp hc))]
  simp

theorem twoNumbersMatch_wire (A B : List Char) (hA : A ≠ []) (hB : B ≠ [])
    (hdA : ∀ c ∈ A, c.isDigit = true) (hdB : ∀ c ∈ B, c.isDigit = true) :
    twoNumbersMatch (A ++ ',' :: B) = some (digitsVal A, digitsVal B) := by
  have h1 : (A ++ ',' :: B).takeWhile Char.isDigit = A := by
    rw [takeWhile_append_all _ _ _ hdA, List.takeWhile_cons, if_neg (by decide)]
    simp
  have h2 : (A ++ ',' :: B).dropWhile Char.isDigit = ',' :: B := by
    rw [dropWhile_append_all _ _ _ hdA, List.dropWhile_cons, if_neg (by decide)]
  have h3 : (',' :: B).takeWhile sepChar = [','] := by
    rw [List.takeWhile_cons, if_pos (by decide)]
    cases B with
    | nil => exact absurd rfl hB
    | cons b bs =>
      rw [List.takeWhile_cons,
        if_neg (by simp [isDigit_not_sep b (hdB b (List.mem_cons_self b bs))])]
  have h4 : (',' :: B).dropWhile sepChar = B := by
    rw [List.dropWhile_cons, if_pos (by decide)]
    exact dropWhile_eq_self_of_all _ _ (fun c hc => isDigit_not_sep c (hdB c hc))
  have h5 : B.takeWhile Char.isDigit = B := takeWhile_eq_self_of_all _ _ hdB
  have h6 : B.dropWhile Char.isDigit = [] := dropWhile_eq_nil_of_all _ _ hdB
  simp only [twoNumbersMatch, h1, h2, h3, h4, h5, h6]
  rw [if_neg hA, if_neg (by simp), if_neg hB]
  simp

theorem intStr_natCast (n : ℕ) : intStr (n : ℤ) = natStr n := by
  unfold intStr
  rw [if_neg (not_lt.mpr (Int.natCast_nonneg n))]
  simp

/-- C8: round-trip of the wire format — for every command with
non-negative integer rpm `r` and duration `t`, the serialized line
`f"{r},{t}\n"` (which is exactly what `send_command` writes for such a
command) strips back to the bare pair text, is matched by grammar 1 (the
structured-pair match) recovering exactly `(r, t)`, and therefore
re-parses to the same command. -/
theorem c8_wire_roundtrip (r t : ℕ) :
    (wireLine r t).data = intStr (r : ℤ) ++ ',' :: intStr (t : ℤ) ++ ['\n'] ∧
    twoNumbersMatch (pyStrip (wireLine r t).data) = some (r, t) ∧
    parse_command (wireLine r t) = Except.ok (some (r : ℤ), some (t : ℤ)) := by
  have hA := natStr_ne_nil r
  have hB := natStr_ne_nil t
  have hdA := natStr_all_digits r
  have hdB := natStr_all_digits t
  have hdata : (wireLine r t).data = (natStr r ++ ',' :: natStr t) ++ ['\n'] := by
    show natStr r ++ ',' :: natStr t ++ ['\n'] = (natStr r ++ ',' :: natStr t) ++ ['\n']
    simp
  have hstrip : pyStrip (wireLine r t).data = natStr r ++ ',' :: natStr t := by
    rw [hdata]
    refine pyStrip_append_nl _ (by simp [hA]) ?_
    intro c hc
    rcases List.mem_append.mp hc with hc | hc
    · exact isDigit_not_ws c (hdA c hc)
    · rcases List.mem_cons.mp hc with rfl | hc
      · decide
      · exact isDigit_not_ws c (hdB c hc)
  have htwo : twoNumbersMatch (pyStrip (wireLine r t).data) = some (r, t) := by
    rw [hstrip, twoNumbersMatch_wire (natStr r) (natStr t) hA hB hdA hdB,
      digitsVal_natStr, digitsVal_natStr]
  refine ⟨?_, htwo, ?_⟩
  · rw [hdata, intStr_natCast, intStr_natCast]
  · simp only [parse_command, htwo]
